import Mathlib

/-!
Shallow embedding of src/scanner.py, the press-release radar script.
Strings are modelled by Lean strings (lists of characters); Python string
operations (lower, in, startswith, endswith, join, whitespace collapsing)
are embedded character by character. The sqlite table is modelled as a list
of rows with the url primary-key check made explicit. Network fetches are
modelled by a function from attempt number to the outcome of that attempt.
-/

namespace Radar

/-- ASCII whitespace characters recognised by the embedding of the Python
regular expression backslash-s used in normalize_whitespace. -/
def isSpaceChar (c : Char) : Bool :=
  c == ' ' || c == '\t' || c == '\n' || c == '\r' || c == Char.ofNat 11 || c == Char.ofNat 12

/-- Collapse every maximal run of whitespace to a single space character:
the embedding of re.sub on the pattern of one-or-more whitespace. The flag
records whether the previous character belonged to a whitespace run. -/
def collapseWS : List Char → Bool → List Char
  | [], _ => []
  | c :: cs, prev =>
    if isSpaceChar c then
      if prev then collapseWS cs true else ' ' :: collapseWS cs true
    else c :: collapseWS cs false

/-- Remove leading and trailing spaces, the str.strip step applied after
collapsing (after collapsing, every whitespace run is a single space). -/
def stripEnds (l : List Char) : List Char :=
  ((l.dropWhile fun c => c == ' ').reverse.dropWhile fun c => c == ' ').reverse

/-- Embedding of scanner.normalize_whitespace. -/
def normalize_whitespace (s : String) : String :=
  ⟨stripEnds (collapseWS s.data false)⟩

/-- Does the needle occur as a starting segment of the haystack. -/
def startsWithL : List Char → List Char → Bool
  | [], _ => true
  | _ :: _, [] => false
  | a :: as, b :: bs => a == b && startsWithL as bs

/-- Contiguous containment of one character list in another, the embedding
of the Python in operator on strings. -/
def containsL (needle : List Char) : List Char → Bool
  | [] => needle.isEmpty
  | b :: bs => startsWithL needle (b :: bs) || containsL needle bs

/-- Python membership test needle in hay for strings. -/
def pyIn (needle hay : String) : Bool := containsL needle.data hay.data

/-- Python str.lower, character by character (faithful on ASCII text). -/
def pyLower (s : String) : String := ⟨s.data.map Char.toLower⟩

/-- Python s.startswith(p). -/
def pyStartsWith (s p : String) : Bool := startsWithL p.data s.data

/-- Python s.endswith(p). -/
def pyEndsWith (s p : String) : Bool := startsWithL p.data.reverse s.data.reverse

/-- Python newline join of a list of lines. -/
def joinNL : List String → String
  | [] => ""
  | [s] => s
  | s :: s2 :: rest => s ++ "\n" ++ joinNL (s2 :: rest)

/-- Python comma-space join used to serialise the matched keyword list. -/
def joinComma : List String → String
  | [] => ""
  | [s] => s
  | s :: s2 :: rest => s ++ ", " ++ joinComma (s2 :: rest)

/-- Keyword weight as computed inside scanner.match_keywords: the keyword
whose lowercase form is definitive agreement weighs 5, lowercase
acquisition weighs 3, and every other keyword weighs 2. -/
def kwWeight (kw : String) : Nat :=
  if pyLower kw = "definitive agreement" then 5
  else if pyLower kw = "acquisition" then 3
  else 2

/-- Embedding of scanner.match_keywords: fold over the keyword list in
order, appending each keyword whose lowercase form occurs in the lowercase
text and accumulating its weight. -/
def match_keywords (text : String) (keywords : List String) : List String × Nat :=
  keywords.foldl
    (fun acc kw =>
      if pyIn (pyLower kw) (pyLower text) then (acc.1 ++ [kw], acc.2 + kwWeight kw)
      else acc)
    ([], 0)

/-- The predicate deciding whether one keyword matches the text. -/
def kwMatches (text kw : String) : Bool := pyIn (pyLower kw) (pyLower text)

theorem match_keywords_fold (text : String) :
    ∀ (keywords : List String) (acc : List String × Nat),
      keywords.foldl
        (fun acc kw =>
          if pyIn (pyLower kw) (pyLower text) then (acc.1 ++ [kw], acc.2 + kwWeight kw)
          else acc) acc
      = (acc.1 ++ keywords.filter (kwMatches text),
         acc.2 + ((keywords.filter (kwMatches text)).map kwWeight).sum) := by
  intro keywords
  induction keywords with
  | nil => intro acc; simp
  | cons kw rest ih =>
    intro acc
    by_cases h : pyIn (pyLower kw) (pyLower text) = true
    · simp only [List.foldl_cons, h, if_true, ih, List.filter_cons, kwMatches, h]
      simp [List.append_assoc, Nat.add_assoc, Nat.add_comm, Nat.add_left_comm]
    · have h2 : kwMatches text kw = false := by
        simp [kwMatches]; exact Bool.eq_false_iff.mpr (fun hc => h hc)
      simp only [List.foldl_cons, h, if_false, ih, List.filter_cons, h2]
      simp

/-- The matched list and score of match_keywords, as filter plus weighted sum. -/
theorem match_keywords_spec (text : String) (keywords : List String) :
    match_keywords text keywords
      = (keywords.filter (kwMatches text),
         ((keywords.filter (kwMatches text)).map kwWeight).sum) := by
  have h := match_keywords_fold text keywords ([], 0)
  simpa [match_keywords] using h

/-- The common item record produced by all three source adapters. The
matched list and score are filled in later by the orchestrator; adapters
leave them empty and zero. -/
structure Item where
  source : String
  title : String
  url : String
  published_at : Option String
  snippet : Option String
  matched : List String
  score : Nat
deriving DecidableEq

/-- One anchor of the parsed HTML page: its href attribute and its visible
text, the two pieces the scraping adapters read from BeautifulSoup. -/
structure Anchor where
  href : String
  text : String
deriving DecidableEq

/-- One decoded entry of the JSON feed. Each field is the collapsed result
of the corresponding Python or-chain of dictionary lookups: titleRaw is
the Title/title chain with empty-string default, link the Url/url/Link/link
chain, published the Published/published/PubDate/pubDate chain, and
teaserRaw the Teaser/teaser/Summary/summary chain with empty default. -/
structure Entry where
  titleRaw : String
  link : Option String
  published : Option String
  teaserRaw : String
deriving DecidableEq

/-- Python truthiness of an optional string: None and the empty string are
falsy, everything else truthy. -/
def optTruthy : Option String → Bool
  | none => false
  | some s => !(s == "")

/-- The anchor filter of fetch_businesswire: drop anchors whose normalized
text is empty or shorter than 12 characters, keep those whose href
contains the /news/home/ marker, resolving relative links against the
BusinessWire base URL. -/
def bwKeep (a : Anchor) : Option Item :=
  let text := normalize_whitespace a.text
  if text = "" ∨ text.length < 12 then none
  else if pyIn "/news/home/" a.href then
    some { source := "BusinessWire", title := text,
           url := if pyStartsWith a.href "http" then a.href
                  else "https://www.businesswire.com" ++ a.href,
           published_at := none, snippet := none, matched := [], score := 0 }
  else none

/-- The anchor filter of fetch_prnewswire: keep anchors whose href contains
the /news-releases/ marker and ends in .html and whose normalized text is
strictly longer than 12 characters. -/
def prnKeep (a : Anchor) : Option Item :=
  let title := normalize_whitespace a.text
  if pyIn "/news-releases/" a.href ∧ pyEndsWith a.href ".html" ∧ 12 < title.length then
    some { source := "PRNewswire", title := title,
           url := if pyStartsWith a.href "http" then a.href
                  else "https://www.prnewswire.com" ++ a.href,
           published_at := none, snippet := none, matched := [], score := 0 }
  else none

/-- The de-dupe-by-url loop shared by both HTML adapters: walk the list,
skipping any item whose url was already seen. -/
def dedupeByUrl (seen : List String) : List Item → List Item
  | [] => []
  | it :: rest =>
    if it.url ∈ seen then dedupeByUrl seen rest
    else it :: dedupeByUrl (it.url :: seen) rest

/-- Embedding of fetch_businesswire from the parsed anchor list onward:
filter anchors, de-dupe by url preserving order, truncate to 50. -/
def fetch_businesswire (anchors : List Anchor) : List Item :=
  (dedupeByUrl [] (anchors.filterMap bwKeep)).take 50

/-- Embedding of fetch_prnewswire from the parsed anchor list onward:
filter anchors, de-dupe by url preserving order, truncate to 60. -/
def fetch_prnewswire (anchors : List Anchor) : List Item :=
  (dedupeByUrl [] (anchors.filterMap prnKeep)).take 60

/-- The per-entry step of fetch_globenewswire_json. The parseDate argument
models dateutil parsing followed by isoformat, returning none when the
parser raises; the try/except of the code turns that failure into a null
published_at. Entries with a falsy title or link are skipped. -/
def gnKeep (parseDate : String → Option String) (e : Entry) : Option Item :=
  let title := normalize_whitespace e.titleRaw
  if title = "" ∨ optTruthy e.link = false then none
  else
    let link := e.link.getD ""
    some { source := "GlobeNewswire", title := title,
           url := if pyStartsWith link "http" then link
                  else "https://www.globenewswire.com" ++ link,
           published_at :=
             if optTruthy e.published then parseDate (e.published.getD "") else none,
           snippet :=
             if normalize_whitespace e.teaserRaw = "" then none
             else some (normalize_whitespace e.teaserRaw),
           matched := [], score := 0 }

/-- Embedding of fetch_globenewswire_json from the decoded entry list
onward: map the per-entry step over the entries and truncate to 60. There
is no de-duplication step in this adapter. -/
def fetch_globenewswire_json (parseDate : String → Option String)
    (entries : List Entry) : List Item :=
  (entries.filterMap (gnKeep parseDate)).take 60

/-- One persisted row of the items table created by db_init. -/
structure Row where
  url : String
  source : String
  title : String
  published_at : Option String
  snippet : Option String
  matched : String
  score : Nat
  first_seen_at : String
deriving DecidableEq

/-- The row written for an item by upsert_new, with the matched list
serialised by the comma-space join and the given insertion timestamp. -/
def rowOf (it : Item) (now : String) : Row :=
  { url := it.url, source := it.source, title := it.title,
    published_at := it.published_at, snippet := it.snippet,
    matched := joinComma it.matched, score := it.score, first_seen_at := now }

/-- Embedding of upsert_new over the table modelled as a row list with url
as primary key: the INSERT raises IntegrityError exactly when a row with
the same url exists, which the code catches and reports as False; otherwise
the row is appended and the code reports True. -/
def upsert_new (db : List Row) (it : Item) (now : String) : List Row × Bool :=
  if db.any fun r => r.url == it.url then (db, false)
  else (db ++ [rowOf it now], true)

/-- An HTTP response, reduced to the two pieces the script inspects. -/
structure Response where
  status : Nat
  body : String
deriving DecidableEq

/-- The error surfaced by a failed fetch: a transport-level exception or
the HTTPError raised by raise_for_status. -/
inductive FetchErr where
  | transport (msg : String)
  | httpStatus (code : Nat)
deriving DecidableEq

/-- Embedding of requests raise_for_status: it raises HTTPError exactly
for client-error and server-error status codes, 400 through 599. -/
def raise_for_status (r : Response) : Except FetchErr Response :=
  if 400 ≤ r.status ∧ r.status < 600 then
    Except.error (FetchErr.httpStatus r.status)
  else Except.ok r

/-- One attempt of the loop body of safe_get: requests.get either raises a
transport error or yields a response, which then passes raise_for_status. -/
def attemptStep (a : Except String Response) : Except FetchErr Response :=
  match a with
  | Except.error m => Except.error (FetchErr.transport m)
  | Except.ok r => raise_for_status r

/-- Embedding of safe_get: att gives the outcome of each network attempt;
the loop runs attempts 0, 1, 2, returns the first response that passes
raise_for_status, and after three failures raises the last error. -/
def safe_get (att : Nat → Except String Response) : Except FetchErr Response :=
  match attemptStep (att 0) with
  | Except.ok r => Except.ok r
  | Except.error _ =>
    match attemptStep (att 1) with
    | Except.ok r => Except.ok r
    | Except.error _ =>
      match attemptStep (att 2) with
      | Except.ok r => Except.ok r
      | Except.error e => Except.error e

/-- The digest header line with the current date appended; the unusual
characters before the date reproduce the source bytes exactly. -/
def dateLine (today : String) : String := "Daily M&A Radar â€” " ++ today

/-- The sort key: score paired with published_at or the empty string. -/
def digestKey (it : Item) : Nat × String := (it.score, it.published_at.getD "")

/-- Python tuple comparison on the sort key: first components by numeric
order, ties broken by code-point lexicographic string order. -/
def keyLE (p q : Nat × String) : Prop := p.1 < q.1 ∨ (p.1 = q.1 ∧ p.2 ≤ q.2)

/-- The descending comparison used by the digest sort with reverse=True:
an item precedes another when its key is at least as large. -/
def hitGE (a b : Item) : Prop := keyLE (digestKey b) (digestKey a)

instance : DecidableRel hitGE := fun a b => by
  unfold hitGE keyLE; infer_instance

theorem keyLE_total (p q : Nat × String) : keyLE p q ∨ keyLE q p := by
  rcases Nat.lt_trichotomy p.1 q.1 with h | h | h
  · exact Or.inl (Or.inl h)
  · rcases le_total p.2 q.2 with h2 | h2
    · exact Or.inl (Or.inr ⟨h, h2⟩)
    · exact Or.inr (Or.inr ⟨h.symm, h2⟩)
  · exact Or.inr (Or.inl h)

theorem keyLE_trans {p q r : Nat × String} (h1 : keyLE p q) (h2 : keyLE q r) :
    keyLE p r := by
  rcases h1 with h1 | ⟨h1, h1s⟩
  · rcases h2 with h2 | ⟨h2, _⟩
    · exact Or.inl (h1.trans h2)
    · exact Or.inl (h2 ▸ h1)
  · rcases h2 with h2 | ⟨h2, h2s⟩
    · exact Or.inl (h1 ▸ h2)
    · exact Or.inr ⟨h1.trans h2, h1s.trans h2s⟩

instance : IsTotal Item hitGE := ⟨fun a b => keyLE_total (digestKey b) (digestKey a)⟩

instance : IsTrans Item hitGE :=
  ⟨fun _ _ _ h1 h2 => keyLE_trans h2 h1⟩

/-- The in-place list sort of build_digest: a stable sort, descending on
the key, modelled by insertion sort with the reflexive descending
comparison (stable descending sorts agree on every input). -/
def pySortHits (hits : List Item) : List Item := List.insertionSort hitGE hits

/-- The per-item lines appended by the loop body of build_digest. -/
def itemLines (it : Item) : List String :=
  ["- " ++ it.title, "  " ++ it.url]
  ++ (if it.published_at.getD "" = "" then []
      else ["  Published: " ++ it.published_at.getD ""])
  ++ (if joinComma it.matched = "" then []
      else ["  Matched: " ++ joinComma it.matched
            ++ " (score " ++ toString it.score ++ ")"])
  ++ (if optTruthy it.snippet then ["  Snippet: " ++ it.snippet.getD ""] else [])

/-- The rendering loop of build_digest: a blank line and a section header
are emitted whenever the source differs from the tracked current source,
which starts out as None. -/
def renderLoop : Option String → List Item → List String
  | _, [] => []
  | cur, it :: rest =>
    (if cur = some it.source then [] else ["", "== " ++ it.source ++ " =="])
      ++ itemLines it ++ renderLoop (some it.source) rest

/-- Embedding of build_digest: the date header and a blank line, then
either the fixed no-matches message or the rendered sorted items. -/
def build_digest (today : String) (new_hits : List Item) : String :=
  if new_hits = [] then
    joinNL [dateLine today, "", "No new keyword matches today."]
  else
    joinNL ([dateLine today, ""] ++ renderLoop none (pySortHits new_hits))

/-- Python string formatting of an optional string inside an f-string: the
value None renders as the four characters None. -/
def pyFmtOpt : Option String → String
  | none => "None"
  | some s => s

/-- The text handed to the keyword matcher by main: the title, a space and
the formatted snippet field. -/
def itemText (it : Item) : String := it.title ++ " " ++ pyFmtOpt it.snippet

/-- Embedding of the filtering loop of main: each item is scored; items
with no matched keyword are dropped; the rest receive their matched list
and score and go through upsert_new, and exactly the freshly inserted ones
are collected as new hits. -/
def processItems (keywords : List String) (now : String) :
    List Row → List Item → List Row × List Item
  | db, [] => (db, [])
  | db, it :: rest =>
    let mk := match_keywords (itemText it) keywords
    if mk.1 = [] then processItems keywords now db rest
    else
      let it2 := { it with matched := mk.1, score := mk.2 }
      let ins := upsert_new db it2 now
      let rec2 := processItems keywords now ins.1 rest
      (rec2.1, if ins.2 then it2 :: rec2.2 else rec2.2)

/-- C2: match tests each keyword by case-insensitive substring containment
and returns the matched keywords in keyword-list order together with a
score that is the sum of the fixed weights (5 for definitive agreement, 3
for acquisition, 2 otherwise) over matched keywords, each keyword counted
once however often it occurs in the text; identical inputs give identical
outputs. -/
theorem c2_match_weighted_sum (text : String) (keywords : List String) :
    match_keywords text keywords
      = (keywords.filter (kwMatches text),
         ((keywords.filter (kwMatches text)).map kwWeight).sum)
    ∧ (∀ kw, kwMatches text kw = pyIn (pyLower kw) (pyLower text))
    ∧ (∀ kw, kwWeight kw
        = if pyLower kw = pyLower "Definitive Agreement" then 5
          else if pyLower kw = pyLower "Acquisition" then 3 else 2)
    ∧ match_keywords text keywords = match_keywords text keywords := by
  refine ⟨match_keywords_spec text keywords, fun kw => rfl, fun kw => ?_, rfl⟩
  have h1 : pyLower "Definitive Agreement" = "definitive agreement" := by decide
  have h2 : pyLower "Acquisition" = "acquisition" := by decide
  rw [h1, h2]; rfl

theorem dedupe_sublist (seen : List String) (l : List Item) :
    (dedupeByUrl seen l).Sublist l := by
  induction l generalizing seen with
  | nil => simp [dedupeByUrl]
  | cons x rest ih =>
    simp only [dedupeByUrl]
    by_cases hx : x.url ∈ seen
    · rw [if_pos hx]; exact (ih seen).cons x
    · rw [if_neg hx]; exact (ih (x.url :: seen)).cons₂ x

theorem mem_dedupe {seen : List String} {l : List Item} {it : Item}
    (h : it ∈ dedupeByUrl seen l) :
    it.url ∉ seen ∧ ∃ pre post, l = pre ++ it :: post ∧ ∀ y ∈ pre, y.url ≠ it.url := by
  induction l generalizing seen with
  | nil => simp [dedupeByUrl] at h
  | cons x rest ih =>
    simp only [dedupeByUrl] at h
    by_cases hx : x.url ∈ seen
    · rw [if_pos hx] at h
      obtain ⟨hnot, pre, post, heq, hpre⟩ := ih h
      refine ⟨hnot, x :: pre, post, by rw [heq]; rfl, ?_⟩
      intro y hy
      rcases List.mem_cons.mp hy with rfl | hy
      · exact fun hc => hnot (hc ▸ hx)
      · exact hpre y hy
    · rw [if_neg hx] at h
      rcases List.mem_cons.mp h with rfl | h
      · exact ⟨hx, [], rest, rfl, by simp⟩
      · obtain ⟨hnot, pre, post, heq, hpre⟩ := ih h
        have hne : x.url ≠ it.url :=
          fun hc => hnot (List.mem_cons.mpr (Or.inl hc.symm))
        refine ⟨fun hc => hnot (List.mem_cons_of_mem _ hc), x :: pre, post,
          by rw [heq]; rfl, ?_⟩
        intro y hy
        rcases List.mem_cons.mp hy with rfl | hy
        · exact hne
        · exact hpre y hy

theorem dedupe_pairwise (seen : List String) (l : List Item) :
    List.Pairwise (fun a b => a.url ≠ b.url) (dedupeByUrl seen l) := by
  induction l generalizing seen with
  | nil => simp [dedupeByUrl]
  | cons x rest ih =>
    simp only [dedupeByUrl]
    by_cases hx : x.url ∈ seen
    · rw [if_pos hx]; exact ih seen
    · rw [if_neg hx]
      refine List.Pairwise.cons ?_ (ih (x.url :: seen))
      intro y hy
      have hnot := (mem_dedupe hy).1
      exact fun hc => hnot (List.mem_cons.mpr (Or.inl hc.symm))

theorem dedupe_complete {l : List Item} {it : Item} (seen : List String) (h : it ∈ l) :
    it.url ∈ seen ∨ it.url ∈ (dedupeByUrl seen l).map Item.url := by
  induction l generalizing seen with
  | nil => simp at h
  | cons x rest ih =>
    simp only [dedupeByUrl]
    rcases List.mem_cons.mp h with rfl | h
    · by_cases hx : it.url ∈ seen
      · exact Or.inl hx
      · rw [if_neg hx]; right; simp
    · by_cases hx : x.url ∈ seen
      · rw [if_pos hx]; exact ih seen h
      · rw [if_neg hx]
        rcases ih (x.url :: seen) h with hmem | hmem
        · rcases List.mem_cons.mp hmem with heq | hseen
          · right; simp [heq]
          · exact Or.inl hseen
        · right; simp [hmem]

/-- The bundle of properties of a de-duped and truncated candidate list:
length is the cap or the number of distinct-url candidates if smaller,
urls are pairwise distinct, the order is a subsequence of the candidate
order, each kept item is the first candidate carrying its url, and every
candidate url survives de-duplication. -/
theorem dedupe_take_props (l : List Item) (n : Nat) :
    ((dedupeByUrl [] l).take n).length = min n (dedupeByUrl [] l).length
    ∧ List.Pairwise (fun a b => a.url ≠ b.url) ((dedupeByUrl [] l).take n)
    ∧ ((dedupeByUrl [] l).take n).Sublist l
    ∧ (∀ it, it ∈ (dedupeByUrl [] l).take n →
        ∃ pre post, l = pre ++ it :: post ∧ ∀ y ∈ pre, y.url ≠ it.url)
    ∧ (∀ it, it ∈ l → it.url ∈ (dedupeByUrl [] l).map Item.url) := by
  refine ⟨List.length_take n _, ?_, ?_, ?_, ?_⟩
  · exact (dedupe_pairwise [] l).sublist (List.take_sublist n _)
  · exact (List.take_sublist n _).trans (dedupe_sublist [] l)
  · intro it hmem
    exact (mem_dedupe ((List.take_sublist n _).subset hmem)).2
  · intro it hmem
    rcases dedupe_complete [] hmem with hc | hc
    · simp at hc
    · exact hc

/-- The JSON entry list used by the C1 counterexample, containing the same
entry twice. -/
def gnDupEntry : Entry :=
  { titleRaw := "Example headline twelve",
    link := some "https://www.globenewswire.com/a",
    published := none, teaserRaw := "" }

/-- C1 is false as stated: the JSON adapter does not de-duplicate by URL.
A payload holding the same entry twice yields two returned Items with the
same url. -/
theorem c1_counterexample :
    (fetch_globenewswire_json (fun _ => none) [gnDupEntry, gnDupEntry]).map
        (fun it => it.url)
      = ["https://www.globenewswire.com/a", "https://www.globenewswire.com/a"] := by
  decide

/-- C1 (amended): the two HTML adapters return lists with pairwise
distinct urls, truncated to their caps (50 for BusinessWire, 60 for
PRNewswire), in original first-seen order with URL duplicates removed and
each kept item being the first candidate with its url; the JSON adapter
only truncates its entries to 60 and performs no URL de-duplication, so
its output length is bounded by 60 but its urls need not be distinct. -/
theorem c1_adapters_amended (anchors panchors : List Anchor)
    (pd : String → Option String) (entries : List Entry) :
    ((fetch_businesswire anchors).length
        = min 50 (dedupeByUrl [] (anchors.filterMap bwKeep)).length)
    ∧ List.Pairwise (fun a b => a.url ≠ b.url) (fetch_businesswire anchors)
    ∧ (fetch_businesswire anchors).Sublist (anchors.filterMap bwKeep)
    ∧ (∀ it, it ∈ fetch_businesswire anchors →
        ∃ pre post, anchors.filterMap bwKeep = pre ++ it :: post
          ∧ ∀ y ∈ pre, y.url ≠ it.url)
    ∧ (∀ it, it ∈ anchors.filterMap bwKeep →
        it.url ∈ (dedupeByUrl [] (anchors.filterMap bwKeep)).map Item.url)
    ∧ ((fetch_prnewswire panchors).length
        = min 60 (dedupeByUrl [] (panchors.filterMap prnKeep)).length)
    ∧ List.Pairwise (fun a b => a.url ≠ b.url) (fetch_prnewswire panchors)
    ∧ (fetch_prnewswire panchors).Sublist (panchors.filterMap prnKeep)
    ∧ (∀ it, it ∈ fetch_prnewswire panchors →
        ∃ pre post, panchors.filterMap prnKeep = pre ++ it :: post
          ∧ ∀ y ∈ pre, y.url ≠ it.url)
    ∧ (∀ it, it ∈ panchors.filterMap prnKeep →
        it.url ∈ (dedupeByUrl [] (panchors.filterMap prnKeep)).map Item.url)
    ∧ fetch_globenewswire_json pd entries = (entries.filterMap (gnKeep pd)).take 60
    ∧ (fetch_globenewswire_json pd entries).length ≤ 60 := by
  obtain ⟨b1, b2, b3, b4, b5⟩ := dedupe_take_props (anchors.filterMap bwKeep) 50
  obtain ⟨p1, p2, p3, p4, p5⟩ := dedupe_take_props (panchors.filterMap prnKeep) 60
  refine ⟨b1, b2, b3, b4, b5, p1, p2, p3, p4, p5, rfl, ?_⟩
  calc (fetch_globenewswire_json pd entries).length
      = min 60 (entries.filterMap (gnKeep pd)).length := List.length_take 60 _
    _ ≤ 60 := Nat.min_le_left 60 _

/-- The anchor list used by the C1 witness: a duplicate BusinessWire url
followed by a fresh one. -/
def c1wAnchors : List Anchor :=
  [⟨"/news/home/alpha", "Alpha headline number one"⟩,
   ⟨"/news/home/alpha", "Alpha headline number one again"⟩,
   ⟨"/news/home/beta", "Beta headline number two"⟩]

/-- The first BusinessWire item produced from c1wAnchors. -/
def c1wItem : Item :=
  { source := "BusinessWire", title := "Alpha headline number one",
    url := "https://www.businesswire.com/news/home/alpha",
    published_at := none, snippet := none, matched := [], score := 0 }

/-- Witness for C1 (amended) at a concrete anchor list with a duplicated
url: the kept item is the first candidate carrying its url. -/
theorem c1_adapters_amended_witness :
    ∃ pre post, c1wAnchors.filterMap bwKeep = pre ++ c1wItem :: post
      ∧ ∀ y ∈ pre, y.url ≠ c1wItem.url :=
  (c1_adapters_amended c1wAnchors [] (fun _ => none) []).2.2.2.1 c1wItem (by decide)

/-- C3 is false as stated: the PRNewswire adapter keeps only anchors whose
normalized text is strictly longer than 12 characters, so an anchor whose
normalized text has length exactly 12 and whose link matches the article
path produces no Item. -/
theorem c3_counterexample :
    fetch_prnewswire [⟨"/news-releases/a.html", "abcdefghijkl"⟩] = []
    ∧ (normalize_whitespace "abcdefghijkl").length = 12
    ∧ pyIn "/news-releases/" "/news-releases/a.html" = true
    ∧ pyEndsWith "/news-releases/a.html" ".html" = true := by
  decide

/-- C3 (amended): the BusinessWire filter keeps exactly the anchors whose
href contains the article-path marker and whose normalized text has length
at least 12 (so exactly 12 produces an Item); the PRNewswire filter keeps
exactly the anchors whose href contains its marker, ends in .html, and
whose normalized text has length at least 13 (strictly greater than 12),
so a normalized text of length exactly 12 is rejected there. -/
theorem c3_keep_amended (a : Anchor) :
    ((bwKeep a).isSome = true ↔
      (12 ≤ (normalize_whitespace a.text).length ∧ pyIn "/news/home/" a.href = true))
    ∧ ((prnKeep a).isSome = true ↔
      (pyIn "/news-releases/" a.href = true ∧ pyEndsWith a.href ".html" = true
        ∧ 13 ≤ (normalize_whitespace a.text).length)) := by
  constructor
  · simp only [bwKeep]
    by_cases h1 : normalize_whitespace a.text = "" ∨ (normalize_whitespace a.text).length < 12
    · rw [if_pos h1]
      refine iff_of_false (by simp) ?_
      rintro ⟨hlen, -⟩
      rcases h1 with he | hl
      · rw [he] at hlen; simp at hlen
      · omega
    · rw [if_neg h1]
      by_cases h2 : pyIn "/news/home/" a.href = true
      · rw [if_pos h2]
        push_neg at h1
        exact iff_of_true (by simp) ⟨by omega, h2⟩
      · rw [if_neg h2]
        refine iff_of_false (by simp) ?_
        rintro ⟨-, hin⟩
        exact h2 hin
  · simp only [prnKeep]
    by_cases h1 : pyIn "/news-releases/" a.href = true ∧ pyEndsWith a.href ".html" = true
        ∧ 12 < (normalize_whitespace a.text).length
    · rw [if_pos h1]
      obtain ⟨ha, hb, hc⟩ := h1
      exact iff_of_true (by simp) ⟨ha, hb, by omega⟩
    · rw [if_neg h1]
      refine iff_of_false (by simp) ?_
      rintro ⟨ha, hb, hc⟩
      exact h1 ⟨ha, hb, by omega⟩

/-- C4: the first insert of a fresh url appends exactly one row and
reports true; a second insert of the same url, whatever the rest of the
item, raises nothing, reports false, and leaves the table unchanged. -/
theorem c4_upsert_idempotent (db : List Row) (it it2 : Item) (t1 t2 : String) :
    ((∀ r ∈ db, r.url ≠ it.url) →
        upsert_new db it t1 = (db ++ [rowOf it t1], true))
    ∧ (it2.url = it.url →
        upsert_new (upsert_new db it t1).1 it2 t2 = ((upsert_new db it t1).1, false)) := by
  constructor
  · intro hfresh
    have hany : (db.any fun r => r.url == it.url) = false := by
      simp only [List.any_eq_false]
      intro r hr
      simpa using hfresh r hr
    simp [upsert_new, hany]
  · intro hurl
    by_cases hin : (db.any fun r => r.url == it.url) = true
    · have h1 : upsert_new db it t1 = (db, false) := by simp [upsert_new, hin]
      rw [h1]
      have hin2 : (db.any fun r => r.url == it2.url) = true := by
        rw [hurl]; exact hin
      simp [upsert_new, hin2]
    · have hany : (db.any fun r => r.url == it.url) = false := by
        simpa using hin
      have h1 : upsert_new db it t1 = (db ++ [rowOf it t1], true) := by
        simp [upsert_new, hany]
      rw [h1]
      have hin2 : ((db ++ [rowOf it t1]).any fun r => r.url == it2.url) = true := by
        simp [List.any_append, rowOf, hurl]
      simp [upsert_new, hin2]

/-- The item used by the C4 witness. -/
def c4Item : Item :=
  { source := "BusinessWire", title := "Acme to acquire Beta Corp",
    url := "https://www.businesswire.com/news/home/1",
    published_at := none, snippet := none, matched := ["acquisition"], score := 3 }

/-- Witness for C4 on the empty table: the first insert appends one row
and reports true, the immediate re-insert reports false and changes
nothing. -/
theorem c4_upsert_idempotent_witness :
    upsert_new [] c4Item "t0" = ([rowOf c4Item "t0"], true)
    ∧ upsert_new (upsert_new [] c4Item "t0").1 c4Item "t1"
        = ((upsert_new [] c4Item "t0").1, false) :=
  ⟨by simpa using (c4_upsert_idempotent [] c4Item c4Item "t0" "t1").1 (by simp),
   (c4_upsert_idempotent [] c4Item c4Item "t0" "t1").2 rfl⟩

/-- C7 is false as stated: a surfaced response with the non-2xx status 304
passes raise_for_status, so the very first attempt is treated as a success
and its response is returned, instead of counting as a failed attempt. -/
theorem c7_counterexample :
    safe_get (fun _ => Except.ok ⟨304, "body"⟩) = Except.ok ⟨304, "body"⟩
    ∧ ¬ (200 ≤ 304 ∧ 304 < 300) :=
  ⟨rfl, by omega⟩

/-- C7 (amended): the client consults at most the first 3 attempts; a
transport error or a 4xx or 5xx status counts as a failed attempt, while
any other surfaced response (2xx, but also for example 304) is returned as
the success; the response of the first successful attempt is returned, and
after three failed attempts the error of the last attempt is surfaced. -/
theorem c7_retry_amended (att att2 : Nat → Except String Response) :
    ((∀ i, i < 3 → att i = att2 i) → safe_get att = safe_get att2)
    ∧ (∀ r, attemptStep (att 0) = Except.ok r → safe_get att = Except.ok r)
    ∧ (∀ e0 r, attemptStep (att 0) = Except.error e0 →
        attemptStep (att 1) = Except.ok r → safe_get att = Except.ok r)
    ∧ (∀ e0 e1 r, attemptStep (att 0) = Except.error e0 →
        attemptStep (att 1) = Except.error e1 →
        attemptStep (att 2) = Except.ok r → safe_get att = Except.ok r)
    ∧ (∀ e0 e1 e2, attemptStep (att 0) = Except.error e0 →
        attemptStep (att 1) = Except.error e1 →
        attemptStep (att 2) = Except.error e2 → safe_get att = Except.error e2)
    ∧ (∀ m, attemptStep (Except.error m) = Except.error (FetchErr.transport m))
    ∧ (∀ r : Response, 400 ≤ r.status → r.status < 600 →
        attemptStep (Except.ok r) = Except.error (FetchErr.httpStatus r.status))
    ∧ (∀ r : Response, r.status < 400 ∨ 600 ≤ r.status →
        attemptStep (Except.ok r) = Except.ok r) := by
  refine ⟨?_, ?_, ?_, ?_, ?_, fun m => rfl, ?_, ?_⟩
  · intro h
    unfold safe_get
    rw [h 0 (by omega), h 1 (by omega), h 2 (by omega)]
  · intro r h
    unfold safe_get
    rw [h]
  · intro e0 r h0 h1
    unfold safe_get
    rw [h0, h1]
  · intro e0 e1 r h0 h1 h2
    unfold safe_get
    rw [h0, h1, h2]
  · intro e0 e1 e2 h0 h1 h2
    unfold safe_get
    rw [h0, h1, h2]
  · intro r ha hb
    simp [attemptStep, raise_for_status, ha, hb]
  · intro r h
    simp only [attemptStep, raise_for_status]
    rw [if_neg (by omega)]

/-- Witness for C7 (amended): with every attempt failing in transport, the
surfaced error is the transport error of the last attempt. -/
theorem c7_retry_amended_witness :
    safe_get (fun _ => Except.error "boom")
      = Except.error (FetchErr.transport "boom") :=
  (c7_retry_amended (fun _ => Except.error "boom")
      (fun _ => Except.error "boom")).2.2.2.2.1
    (FetchErr.transport "boom") (FetchErr.transport "boom")
    (FetchErr.transport "boom") rfl rfl rfl

/-- C8: the JSON adapter drops an entry with a falsy title or link and
continues with the remaining entries; an entry whose title and link are
present is always produced, whatever the date parser does, and a failing
date parse leaves the produced item with a null published_at. -/
theorem c8_json_entry_recovery (pd : String → Option String) (e : Entry)
    (pre post : List Entry) :
    ((normalize_whitespace e.titleRaw = "" ∨ optTruthy e.link = false) →
        fetch_globenewswire_json pd (pre ++ e :: post)
          = fetch_globenewswire_json pd (pre ++ post))
    ∧ (∀ it, gnKeep pd e = some it →
        it.published_at
          = if optTruthy e.published then pd (e.published.getD "") else none)
    ∧ ((normalize_whitespace e.titleRaw ≠ "" ∧ optTruthy e.link = true) →
        (gnKeep pd e).isSome = true) := by
  refine ⟨?_, ?_, ?_⟩
  · intro h
    have hnone : gnKeep pd e = none := by
      simp only [gnKeep]
      rw [if_pos h]
    simp [fetch_globenewswire_json, List.filterMap_append, List.filterMap_cons, hnone]
  · intro it h
    simp only [gnKeep] at h
    by_cases h1 : normalize_whitespace e.titleRaw = "" ∨ optTruthy e.link = false
    · rw [if_pos h1] at h
      exact absurd h (by simp)
    · rw [if_neg h1] at h
      injection h with h2
      subst h2
      rfl
  · intro ⟨h1, h2⟩
    simp only [gnKeep]
    rw [if_neg]
    · simp
    · intro hc
      rcases hc with hc | hc
      · exact h1 hc
      · simp [h2] at hc

/-- The always-failing date parser used by the C8 witness. -/
def c8pd : String → Option String := fun _ => none

/-- The JSON entry used by the C8 witness: present title and link, and a
publish-date string its parser rejects. -/
def c8Entry : Entry :=
  { titleRaw := "Gamma agrees merger deal", link := some "/news/gamma",
    published := some "not a date", teaserRaw := "" }

/-- The item the C8 witness entry produces. -/
def c8ItemW : Item :=
  { source := "GlobeNewswire", title := "Gamma agrees merger deal",
    url := "https://www.globenewswire.com/news/gamma",
    published_at := none, snippet := none, matched := [], score := 0 }

/-- Witness for C8: at a concrete entry whose date string fails to parse,
the produced item carries a null published_at. -/
theorem c8_json_entry_recovery_witness :
    c8ItemW.published_at
      = if optTruthy c8Entry.published then c8pd (c8Entry.published.getD "") else none :=
  (c8_json_entry_recovery c8pd c8Entry [] []).2.1 c8ItemW (by decide)

/-- C9: on an empty hit list the digest is exactly the date header line, a
blank line, and the fixed no-new-matches message. -/
theorem c9_empty_digest (today : String) :
    build_digest today []
      = dateLine today ++ "\n\n" ++ "No new keyword matches today." := by
  apply String.ext
  simp [build_digest, joinNL, String.data_append]

/-- C5: on a non-empty hit list the digest is the date header, a blank
line, and the rendering of the hits sorted descending by the pair of score
and published_at-or-empty (a permutation of the input, sorted under the
descending key comparison), where the rendering loop emits a blank line
and a section header exactly when the source differs from the previously
rendered source. -/
theorem c5_digest_sorted_grouped (today : String) (hits : List Item)
    (hne : hits ≠ []) :
    build_digest today hits
      = joinNL ([dateLine today, ""] ++ renderLoop none (pySortHits hits))
    ∧ (pySortHits hits).Perm hits
    ∧ List.Sorted hitGE (pySortHits hits)
    ∧ (∀ a b : Item, hitGE a b ↔
        (b.score < a.score ∨ (b.score = a.score
          ∧ b.published_at.getD "" ≤ a.published_at.getD "")))
    ∧ (∀ cur it rest, renderLoop cur (it :: rest)
        = (if cur = some it.source then [] else ["", "== " ++ it.source ++ " =="])
          ++ itemLines it ++ renderLoop (some it.source) rest) := by
  refine ⟨?_, List.perm_insertionSort hitGE hits, List.sorted_insertionSort hitGE hits,
    fun a b => Iff.rfl, fun cur it rest => rfl⟩
  simp [build_digest, hne]

/-- The hit used by the C5 witness. -/
def c5Item : Item :=
  { source := "BusinessWire", title := "Acme to acquire Beta Corp",
    url := "https://www.businesswire.com/news/home/5",
    published_at := none, snippet := none, matched := ["acquisition"], score := 3 }

/-- Witness for C5 at a concrete one-element hit list. -/
theorem c5_digest_sorted_grouped_witness :
    (pySortHits [c5Item]).Perm [c5Item] ∧ List.Sorted hitGE (pySortHits [c5Item]) :=
  ⟨(c5_digest_sorted_grouped "2026-10-12" [c5Item] (by simp)).2.1,
   (c5_digest_sorted_grouped "2026-10-12" [c5Item] (by simp)).2.2.1⟩

theorem processItems_filter (keywords : List String) (now : String) :
    ∀ (items : List Item) (db : List Row),
      processItems keywords now db items
        = processItems keywords now db
            (items.filter fun it =>
              !decide ((match_keywords (itemText it) keywords).1 = [])) := by
  intro items
  induction items with
  | nil => intro db; rfl
  | cons it rest ih =>
    intro db
    by_cases h : (match_keywords (itemText it) keywords).1 = []
    · have hp : (!decide ((match_keywords (itemText it) keywords).1 = [])) = false := by
        simp [h]
      simp only [processItems, if_pos h, List.filter_cons, hp]
      simp only [Bool.false_eq_true, if_false]
      exact ih db
    · have hp : (!decide ((match_keywords (itemText it) keywords).1 = [])) = true := by
        simp [h]
      simp only [List.filter_cons, hp, if_true]
      simp only [processItems, if_neg h]
      rw [ih]

theorem processItems_hits_matched (keywords : List String) (now : String) :
    ∀ (items : List Item) (db : List Row) (hit : Item),
      hit ∈ (processItems keywords now db items).2 → hit.matched ≠ [] := by
  intro items
  induction items with
  | nil => intro db hit h; simp [processItems] at h
  | cons it rest ih =>
    intro db hit h
    simp only [processItems] at h
    by_cases hm : (match_keywords (itemText it) keywords).1 = []
    · rw [if_pos hm] at h
      exact ih db hit h
    · rw [if_neg hm] at h
      dsimp only at h
      split at h
      · rcases List.mem_cons.mp h with rfl | h2
        · dsimp only
          exact hm
        · exact ih _ hit h2
      · exact ih _ hit h

theorem mem_upsert_fst {db : List Row} {it : Item} {now : String} {r : Row}
    (h : r ∈ (upsert_new db it now).1) : r ∈ db ∨ r = rowOf it now := by
  unfold upsert_new at h
  by_cases hin : (db.any fun x => x.url == it.url) = true
  · rw [if_pos hin] at h
    exact Or.inl h
  · rw [if_neg hin] at h
    rcases List.mem_append.mp h with h2 | h2
    · exact Or.inl h2
    · right; simpa using h2

theorem processItems_rows (keywords : List String) (now : String) :
    ∀ (items : List Item) (db : List Row) (r : Row),
      r ∈ (processItems keywords now db items).1 →
        r ∈ db ∨ ∃ it2, it2.matched ≠ [] ∧ r = rowOf it2 now := by
  intro items
  induction items with
  | nil =>
    intro db r h
    simp only [processItems] at h
    exact Or.inl h
  | cons it rest ih =>
    intro db r h
    simp only [processItems] at h
    by_cases hm : (match_keywords (itemText it) keywords).1 = []
    · rw [if_pos hm] at h
      exact ih db r h
    · rw [if_neg hm] at h
      dsimp only at h
      rcases ih _ r h with hdb | hex
      · rcases mem_upsert_fst hdb with hdb2 | hrow
        · exact Or.inl hdb2
        · exact Or.inr ⟨_, hm, hrow⟩
      · exact Or.inr hex

/-- C6: an item whose matched list comes back empty is excluded entirely,
so the run behaves as if those items were filtered out before processing;
every collected new hit has a non-empty matched list; and every row of the
resulting table either predates the run or was written from an item with a
non-empty matched list. -/
theorem c6_matched_iff_survived (keywords : List String) (now : String)
    (db : List Row) (items : List Item) :
    processItems keywords now db items
      = processItems keywords now db
          (items.filter fun it =>
            !decide ((match_keywords (itemText it) keywords).1 = []))
    ∧ (∀ hit, hit ∈ (processItems keywords now db items).2 → hit.matched ≠ [])
    ∧ (∀ r, r ∈ (processItems keywords now db items).1 →
        r ∈ db ∨ ∃ it2, it2.matched ≠ [] ∧ r = rowOf it2 now) :=
  ⟨processItems_filter keywords now items db,
   fun hit h => processItems_hits_matched keywords now items db hit h,
   fun r h => processItems_rows keywords now items db r h⟩

/-- The matching item used by the C6 witness. -/
def c6Item : Item :=
  { source := "GlobeNewswire", title := "Alpha merger closes",
    url := "https://www.globenewswire.com/n1",
    published_at := none, snippet := none, matched := [], score := 0 }

/-- The new hit the C6 witness item becomes after scoring. -/
def c6Hit : Item :=
  { source := "GlobeNewswire", title := "Alpha merger closes",
    url := "https://www.globenewswire.com/n1",
    published_at := none, snippet := none, matched := ["merger"], score := 2 }

/-- Witness for C6: at a concrete run the collected hit has a non-empty
matched list. -/
theorem c6_matched_iff_survived_witness : c6Hit.matched ≠ [] :=
  (c6_matched_iff_survived ["merger"] "t0" [] [c6Item]).2.1 c6Hit (by decide)

theorem containsL_append_left (n h2 : List Char) (h : containsL n h2 = true) :
    ∀ h1 : List Char, containsL n (h1 ++ h2) = true := by
  intro h1
  induction h1 with
  | nil => simpa using h
  | cons c t ih =>
    simp only [List.cons_append, containsL]
    simp [ih]

theorem bwKeep_snippet {a : Anchor} {it : Item} (h : bwKeep a = some it) :
    it.snippet = none := by
  simp only [bwKeep] at h
  by_cases h1 : normalize_whitespace a.text = "" ∨ (normalize_whitespace a.text).length < 12
  · rw [if_pos h1] at h
    exact absurd h (by simp)
  · rw [if_neg h1] at h
    by_cases h2 : pyIn "/news/home/" a.href = true
    · rw [if_pos h2] at h
      injection h with h3
      subst h3
      rfl
    · rw [if_neg h2] at h
      exact absurd h (by simp)

theorem prnKeep_snippet {a : Anchor} {it : Item} (h : prnKeep a = some it) :
    it.snippet = none := by
  simp only [prnKeep] at h
  by_cases h1 : pyIn "/news-releases/" a.href = true ∧ pyEndsWith a.href ".html" = true
      ∧ 12 < (normalize_whitespace a.text).length
  · rw [if_pos h1] at h
    injection h with h3
    subst h3
    rfl
  · rw [if_neg h1] at h
    exact absurd h (by simp)

theorem fetch_bw_snippet {anchors : List Anchor} {it : Item}
    (h : it ∈ fetch_businesswire anchors) : it.snippet = none := by
  have h2 : it ∈ anchors.filterMap bwKeep :=
    (dedupe_sublist [] _).subset ((List.take_sublist _ _).subset h)
  obtain ⟨a, -, ha⟩ := List.mem_filterMap.mp h2
  exact bwKeep_snippet ha

theorem fetch_prn_snippet {anchors : List Anchor} {it : Item}
    (h : it ∈ fetch_prnewswire anchors) : it.snippet = none := by
  have h2 : it ∈ anchors.filterMap prnKeep :=
    (dedupe_sublist [] _).subset ((List.take_sublist _ _).subset h)
  obtain ⟨a, -, ha⟩ := List.mem_filterMap.mp h2
  exact prnKeep_snippet ha

theorem none_snippet_matches {it : Item} (hs : it.snippet = none)
    {keywords : List String} {kw : String} (hkw : kw ∈ keywords)
    (hin : pyIn (pyLower kw) (pyLower "None") = true) :
    itemText it = it.title ++ " " ++ "None"
    ∧ kw ∈ (match_keywords (itemText it) keywords).1 := by
  have htext : itemText it = it.title ++ " " ++ "None" := by
    simp [itemText, pyFmtOpt, hs]
  refine ⟨htext, ?_⟩
  rw [match_keywords_spec]
  apply List.mem_filter.mpr
  refine ⟨hkw, ?_⟩
  unfold kwMatches pyIn
  rw [htext]
  have hdata : (pyLower (it.title ++ " " ++ "None")).data
      = ((it.title ++ " ").data.map Char.toLower) ++ ("none".data) := by
    show ((it.title ++ " " ++ "None").data).map Char.toLower = _
    rw [show (it.title ++ " " ++ "None").data
        = (it.title ++ " ").data ++ "None".data from rfl]
    rw [List.map_append]
    rw [show ("None".data.map Char.toLower) = "none".data from by decide]
  rw [hdata]
  apply containsL_append_left
  have hlow : (pyLower "None").data = "none".data := by decide
  unfold pyIn at hin
  rw [hlow] at hin
  exact hin

/-- C10: every item produced by the two HTML adapters carries a null
snippet, the text main hands to the matcher for it is the title, a space
and the literal string None, and therefore any configured keyword that is
a case-insensitive substring of None matches every such item. -/
theorem c10_none_snippet (anchors panchors : List Anchor) (keywords : List String)
    (kw : String) (hkw : kw ∈ keywords)
    (hin : pyIn (pyLower kw) (pyLower "None") = true) :
    (∀ it, it ∈ fetch_businesswire anchors →
        itemText it = it.title ++ " " ++ "None"
        ∧ kw ∈ (match_keywords (itemText it) keywords).1)
    ∧ (∀ it, it ∈ fetch_prnewswire panchors →
        itemText it = it.title ++ " " ++ "None"
        ∧ kw ∈ (match_keywords (itemText it) keywords).1) :=
  ⟨fun _ hmem => none_snippet_matches (fetch_bw_snippet hmem) hkw hin,
   fun _ hmem => none_snippet_matches (fetch_prn_snippet hmem) hkw hin⟩

/-- The anchor list used by the C10 witness. -/
def c10Anchors : List Anchor :=
  [⟨"/news/home/x1", "Company announces big deal"⟩]

/-- The item the C10 witness anchor produces. -/
def c10Item : Item :=
  { source := "BusinessWire", title := "Company announces big deal",
    url := "https://www.businesswire.com/news/home/x1",
    published_at := none, snippet := none, matched := [], score := 0 }

/-- Witness for C10: with the keyword none configured, the concrete
BusinessWire item matches through its rendered null snippet. -/
theorem c10_none_snippet_witness :
    itemText c10Item = c10Item.title ++ " " ++ "None"
    ∧ "none" ∈ (match_keywords (itemText c10Item) ["none"]).1 :=
  (c10_none_snippet c10Anchors [] ["none"] "none" (by decide) (by decide)).1
    c10Item (by decide)

/-- Witness for C2 at a concrete text and keyword list. -/
theorem c2_match_weighted_sum_witness :
    match_keywords "Acme signs definitive agreement" ["definitive agreement", "merger"]
      = (["definitive agreement", "merger"].filter
          (kwMatches "Acme signs definitive agreement"),
         ((["definitive agreement", "merger"].filter
            (kwMatches "Acme signs definitive agreement")).map kwWeight).sum) :=
  (c2_match_weighted_sum "Acme signs definitive agreement"
    ["definitive agreement", "merger"]).1

/-- Witness for C3 (amended) at a concrete anchor whose normalized text
has length exactly 12: BusinessWire keeps it, PRNewswire rejects it. -/
theorem c3_keep_amended_witness :
    ((bwKeep ⟨"/news/home/a", "Exact twelve"⟩).isSome = true ↔
      (12 ≤ (normalize_whitespace "Exact twelve").length
        ∧ pyIn "/news/home/" "/news/home/a" = true)) :=
  (c3_keep_amended ⟨"/news/home/a", "Exact twelve"⟩).1

/-- Witness for C9 at a concrete date. -/
theorem c9_empty_digest_witness :
    build_digest "2026-10-12" []
      = dateLine "2026-10-12" ++ "\n\n" ++ "No new keyword matches today." :=
  c9_empty_digest "2026-10-12"

end Radar
